import Mathlib

/-!
Verification of the rust-socksd proxy daemon against its specification.

The development shallowly embeds the relevant parts of the source:
bytes are `Nat` (values < 256 where it matters), strings are `List Char`,
byte streams are `List Nat`, and each stateful handler becomes a pure
function from its input stream to its observable writes and outcome.
-/

/-! ## SOCKS5 wire types (src/socks5.rs) -/

/-- `AuthMethod` from src/socks5.rs. -/
inductive AuthMethod where
  | noAuth
  | userPass
  | noAcceptable
deriving DecidableEq, Repr

/-- `impl From<u8> for AuthMethod` (src/socks5.rs lines 17-25). -/
def authMethodFromByte (b : Nat) : AuthMethod :=
  if b = 0x00 then .noAuth
  else if b = 0x02 then .userPass
  else .noAcceptable

/-- The `as u8` discriminant cast used when writing the selected method. -/
def AuthMethod.toByte : AuthMethod → Nat
  | .noAuth => 0x00
  | .userPass => 0x02
  | .noAcceptable => 0xFF

/-- `Command` from src/socks5.rs. -/
inductive Command where
  | connect
  | bind
  | udpAssociate
deriving DecidableEq, Repr

/-- `impl From<u8> for Command` (src/socks5.rs lines 34-43): any byte other
than 0x01/0x02/0x03 falls through to `Command::Connect`. -/
def commandFromByte (b : Nat) : Command :=
  if b = 0x01 then .connect
  else if b = 0x02 then .bind
  else if b = 0x03 then .udpAssociate
  else .connect

/-- `AddressType` from src/socks5.rs. -/
inductive AddressType where
  | ipv4
  | domainName
  | ipv6
deriving DecidableEq, Repr

/-- `impl From<u8> for AddressType` (src/socks5.rs lines 52-61): any byte
other than 0x01/0x03/0x04 falls through to `AddressType::DomainName`. -/
def addressTypeFromByte (b : Nat) : AddressType :=
  if b = 0x01 then .ipv4
  else if b = 0x03 then .domainName
  else if b = 0x04 then .ipv6
  else .domainName

/-- `Address` from src/socks5.rs; IPv4/IPv6 octets and domain-name bytes are
kept as raw byte lists. -/
inductive Address where
  | ipv4 : List Nat → Address
  | ipv6 : List Nat → Address
  | domainName : List Nat → Address
deriving DecidableEq, Repr

/-! ## Dispatch of the decoded command (src/server.rs `handle_socks5_connection`) -/

/-- The observable dispatch decision of `handle_socks5_connection`
(src/server.rs lines 213-227). -/
inductive DispatchOutcome where
  | connectAttempt
  | replyCommandNotSupported
deriving DecidableEq, Repr

/-- `match request.command` in `handle_socks5_connection`: `Connect` goes to
`handle_socks5_connect`; `Bind` and `UdpAssociate` send reply 0x07 and fail. -/
def dispatchCommand : Command → DispatchOutcome
  | .connect => .connectAttempt
  | .bind => .replyCommandNotSupported
  | .udpAssociate => .replyCommandNotSupported

/-- C8: the decoder's catch-all arm sends every byte outside {1,2,3} to
`Connect`, and the server then dispatches it as a CONNECT attempt rather than
replying 0x07. -/
theorem commandFromByte_undefined_is_connect (b : Nat) (_hb : b < 256)
    (h1 : b ≠ 0x01) (h2 : b ≠ 0x02) (h3 : b ≠ 0x03) :
    commandFromByte b = Command.connect ∧
    dispatchCommand (commandFromByte b) = DispatchOutcome.connectAttempt := by
  unfold commandFromByte
  simp [h1, h2, h3, dispatchCommand]

/-- Witness for C8 at the concrete undefined command byte 0x7F. -/
theorem commandFromByte_undefined_is_connect_witness :
    commandFromByte 0x7F = Command.connect ∧
    dispatchCommand (commandFromByte 0x7F) = DispatchOutcome.connectAttempt :=
  commandFromByte_undefined_is_connect 0x7F (by decide) (by decide) (by decide)
    (by decide)

/-! ## SOCKS5 request parsing (src/socks5.rs `handle_request`) -/

/-- A UTF-8 continuation byte (`0x80..=0xBF`). -/
def isContByte (b : Nat) : Bool := 0x80 ≤ b && b ≤ 0xBF

/-- UTF-8 validity of a byte sequence, as checked by Rust's
`String::from_utf8` (rejecting overlong forms, surrogates, and values above
U+10FFFF). -/
def validUtf8 : List Nat → Bool
  | [] => true
  | b :: rest =>
    if b ≤ 0x7F then validUtf8 rest
    else if b < 0xC2 then false
    else if b ≤ 0xDF then
      match rest with
      | b2 :: r => isContByte b2 && validUtf8 r
      | [] => false
    else if b ≤ 0xEF then
      match rest with
      | b2 :: b3 :: r =>
        (if b = 0xE0 then decide (0xA0 ≤ b2 ∧ b2 ≤ 0xBF)
         else if b = 0xED then decide (0x80 ≤ b2 ∧ b2 ≤ 0x9F)
         else isContByte b2) && isContByte b3 && validUtf8 r
      | _ => false
    else if b ≤ 0xF4 then
      match rest with
      | b2 :: b3 :: b4 :: r =>
        (if b = 0xF0 then decide (0x90 ≤ b2 ∧ b2 ≤ 0xBF)
         else if b = 0xF4 then decide (0x80 ≤ b2 ∧ b2 ≤ 0x8F)
         else isContByte b2) && isContByte b3 && isContByte b4 && validUtf8 r
      | _ => false
    else false

/-- `Socks5Request` from src/socks5.rs. -/
structure Socks5Request where
  command : Command
  address : Address
  port : Nat
deriving DecidableEq, Repr

/-- `Socks5Handler::handle_request` (src/socks5.rs lines 235-285) as a pure
parser over the input byte stream: reads `ver|cmd|rsv|atyp`, rejects
`ver ≠ 0x05`, decodes the address according to `AddressType::from(atyp)`
(the domain-name branch reads a 1-byte length then that many bytes and
requires them to be valid UTF-8), then reads a 2-byte big-endian port.
Short reads (`read_exact` past end of stream) are errors. -/
def parseSocks5Request (input : List Nat) : Except String Socks5Request :=
  match input with
  | v :: c :: _r :: a :: rest =>
    if v ≠ 0x05 then .error "Invalid SOCKS version in request"
    else
      let finish : Address → List Nat → Except String Socks5Request :=
        fun addr rest2 =>
          match rest2 with
          | p1 :: p2 :: _ => .ok ⟨commandFromByte c, addr, p1 * 256 + p2⟩
          | _ => .error "short read"
      match addressTypeFromByte a with
      | .ipv4 =>
        if rest.length < 4 then .error "short read"
        else finish (.ipv4 (rest.take 4)) (rest.drop 4)
      | .ipv6 =>
        if rest.length < 16 then .error "short read"
        else finish (.ipv6 (rest.take 16)) (rest.drop 16)
      | .domainName =>
        match rest with
        | [] => .error "short read"
        | len :: rest2 =>
          if rest2.length < len then .error "short read"
          else if validUtf8 (rest2.take len) then
            finish (.domainName (rest2.take len)) (rest2.drop len)
          else .error "invalid utf-8 sequence"
  | _ => .error "short read"

/-- C9: an undefined atyp byte decodes to `DomainName`, and the request
parser then treats the wire bytes exactly as a domain-name address: one
length byte followed by that many name bytes, then the port — the
connection is not aborted. -/
theorem addressType_undefined_parses_as_domain (b c r len p1 p2 : Nat)
    (name rest : List Nat) (_hb : b < 256)
    (h1 : b ≠ 0x01) (h3 : b ≠ 0x03) (h4 : b ≠ 0x04)
    (hlen : name.length = len) (hutf : validUtf8 name = true) :
    addressTypeFromByte b = AddressType.domainName ∧
    parseSocks5Request (0x05 :: c :: r :: b :: len :: (name ++ p1 :: p2 :: rest)) =
      .ok ⟨commandFromByte c, Address.domainName name, p1 * 256 + p2⟩ := by
  have hat : addressTypeFromByte b = AddressType.domainName := by
    unfold addressTypeFromByte
    simp [h1, h3, h4]
  refine ⟨hat, ?_⟩
  have htake : (name ++ p1 :: p2 :: rest).take len = name := by
    subst hlen
    simp
  have hdrop : (name ++ p1 :: p2 :: rest).drop len = p1 :: p2 :: rest := by
    subst hlen
    simp
  have hlength : ¬ (name ++ p1 :: p2 :: rest).length < len := by
    subst hlen
    simp
  simp only [parseSocks5Request, hat, htake, hdrop, hlength, hutf,
    if_false, if_true, ite_false, ite_true]
  simp

/-- Witness for C9 at the concrete undefined atyp byte 0x05 with domain
name bytes "ab" and port 80. -/
theorem addressType_undefined_parses_as_domain_witness :
    addressTypeFromByte 0x05 = AddressType.domainName ∧
    parseSocks5Request (0x05 :: 0x01 :: 0x00 :: 0x05 :: 2 :: ([97, 98] ++ 0 :: 80 :: [])) =
      .ok ⟨commandFromByte 0x01, Address.domainName [97, 98], 0 * 256 + 80⟩ :=
  addressType_undefined_parses_as_domain 0x05 0x01 0x00 2 0 80 [97, 98] []
    (by decide) (by decide) (by decide) (by decide) (by decide) (by decide)

/-! ## SOCKS5 response encoding (src/socks5.rs `send_response`) -/

/-- `Socks5Response` from src/socks5.rs. -/
structure Socks5Response where
  reply : Nat
  address : Address
  port : Nat
deriving DecidableEq, Repr

/-- `Socks5Response::new_error` (src/socks5.rs lines 116-122). -/
def Socks5Response.new_error (replyCode : Nat) : Socks5Response :=
  ⟨replyCode, Address.ipv4 [0, 0, 0, 0], 0⟩

/-- The bytes written by `Socks5Handler::send_response`
(src/socks5.rs lines 287-317): `ver(0x05)|rep|rsv(0x00)|atyp|addr|port_be`.
The domain-name length byte is `domain.len() as u8`, a mod-256 cast; the
port is written big-endian by `put_u16`. -/
def encodeSocks5Response (resp : Socks5Response) : List Nat :=
  let addrBytes : List Nat :=
    match resp.address with
    | .ipv4 o => 0x01 :: o
    | .ipv6 o => 0x04 :: o
    | .domainName d => 0x03 :: (d.length % 256) :: d
  0x05 :: resp.reply :: 0x00 :: addrBytes ++ [resp.port / 256, resp.port % 256]

/-- Modelled from the spec: the repository contains no decoder for SOCKS5
responses (only clients decode them), so this reads the wire format of
§4.4 back: `ver(0x05)|rep|rsv(0x00)|atyp|addr|port_be`, with the address
read per atyp (IPv4: 4 bytes; IPv6: 16 bytes; DomainName: a length byte
then that many bytes), consuming the whole input. -/
def decodeSocks5Response (input : List Nat) : Option Socks5Response :=
  match input with
  | 0x05 :: rep :: 0x00 :: atyp :: rest =>
    let readPort : List Nat → Option (Address → Socks5Response) :=
      fun tail =>
        match tail with
        | [p1, p2] => some (fun addr => ⟨rep, addr, p1 * 256 + p2⟩)
        | _ => none
    match atyp with
    | 0x01 =>
      match readPort (rest.drop 4) with
      | some mk => if rest.length < 4 then none else some (mk (.ipv4 (rest.take 4)))
      | none => none
    | 0x04 =>
      match readPort (rest.drop 16) with
      | some mk => if rest.length < 16 then none else some (mk (.ipv6 (rest.take 16)))
      | none => none
    | 0x03 =>
      match rest with
      | len :: rest2 =>
        match readPort (rest2.drop len) with
        | some mk => if rest2.length < len then none else some (mk (.domainName (rest2.take len)))
        | none => none
      | [] => none
    | _ => none
  | _ => none

/-- Well-formedness of an `Address` value as carried by the source types:
`Ipv4Addr`/`Ipv6Addr` octet arrays have 4/16 bytes, and the spec's data
model bounds a domain name by 255 bytes. -/
def Address.wf : Address → Prop
  | .ipv4 o => o.length = 4
  | .ipv6 o => o.length = 16
  | .domainName d => d.length ≤ 255

/-- C4: encoding a `Socks5Response` with `send_response`'s wire format and
decoding the bytes back yields the same (reply, address, port) tuple, for
all three address variants. -/
theorem socks5Response_encode_decode_roundtrip (resp : Socks5Response)
    (hrep : resp.reply < 256) (hport : resp.port < 65536)
    (haddr : resp.address.wf) :
    decodeSocks5Response (encodeSocks5Response resp) = some resp := by
  obtain ⟨rep, addr, port⟩ := resp
  have hport2 : port / 256 * 256 + port % 256 = port := by omega
  cases addr with
  | ipv4 o =>
    have h4 : o.length = 4 := haddr
    obtain ⟨a, b, c, d, rfl⟩ : ∃ a b c d, o = [a, b, c, d] := by
      match o, h4 with
      | [a, b, c, d], _ => exact ⟨a, b, c, d, rfl⟩
    simp [encodeSocks5Response, decodeSocks5Response, hport2]
  | ipv6 o =>
    have h16 : o.length = 16 := haddr
    obtain ⟨a1, a2, a3, a4, a5, a6, a7, a8, a9, a10, a11, a12, a13, a14, a15, a16, rfl⟩ :
        ∃ a1 a2 a3 a4 a5 a6 a7 a8 a9 a10 a11 a12 a13 a14 a15 a16,
          o = [a1, a2, a3, a4, a5, a6, a7, a8, a9, a10, a11, a12, a13, a14, a15, a16] := by
      match o, h16 with
      | [a1, a2, a3, a4, a5, a6, a7, a8, a9, a10, a11, a12, a13, a14, a15, a16], _ =>
        exact ⟨a1, a2, a3, a4, a5, a6, a7, a8, a9, a10, a11, a12, a13, a14, a15, a16, rfl⟩
    simp [encodeSocks5Response, decodeSocks5Response, hport2]
  | domainName dn =>
    have hlen : dn.length ≤ 255 := haddr
    have hmod : dn.length % 256 = dn.length := Nat.mod_eq_of_lt (by omega)
    have hdrop : (dn ++ [port / 256, port % 256]).drop dn.length = [port / 256, port % 256] := by
      simp
    have htake : (dn ++ [port / 256, port % 256]).take dn.length = dn := by
      simp
    have hlength : ¬ (dn ++ [port / 256, port % 256]).length < dn.length := by
      simp
    simp only [encodeSocks5Response, decodeSocks5Response, hmod, List.cons_append,
      hdrop, htake, hlength, if_false, ite_false]
    simp [hport2]

/-- Witness for C4 on the concrete response
`{reply := 0, address := DomainName "ab", port := 443}`. -/
theorem socks5Response_encode_decode_roundtrip_witness :
    decodeSocks5Response (encodeSocks5Response ⟨0, Address.domainName [97, 98], 443⟩) =
      some ⟨0, Address.domainName [97, 98], 443⟩ :=
  socks5Response_encode_decode_roundtrip ⟨0, Address.domainName [97, 98], 443⟩
    (by decide) (by decide) (by simp [Address.wf])

/-! ## SOCKS5 handshake (src/socks5.rs `handle_handshake`, `handle_user_pass_auth`) -/

/-- `authMethodFromByte` yields `UserPass` exactly on byte 0x02. -/
theorem authMethodFromByte_eq_userPass (b : Nat) :
    authMethodFromByte b = AuthMethod.userPass ↔ b = 0x02 := by
  unfold authMethodFromByte
  split_ifs with h1 h2 <;> simp_all

/-- `authMethodFromByte` yields `NoAuth` exactly on byte 0x00. -/
theorem authMethodFromByte_eq_noAuth (b : Nat) :
    authMethodFromByte b = AuthMethod.noAuth ↔ b = 0x00 := by
  unfold authMethodFromByte
  split_ifs with h1 h2 <;> simp_all

/-- The decoded method list offers `UserPass` iff byte 0x02 was offered. -/
theorem userPass_mem_decoded (ms : List Nat) :
    AuthMethod.userPass ∈ ms.map authMethodFromByte ↔ 0x02 ∈ ms := by
  simp only [List.mem_map]
  constructor
  · rintro ⟨b, hb, he⟩
    rw [authMethodFromByte_eq_userPass] at he
    exact he ▸ hb
  · intro h
    exact ⟨0x02, h, by rw [authMethodFromByte_eq_userPass]⟩

/-- The decoded method list offers `NoAuth` iff byte 0x00 was offered. -/
theorem noAuth_mem_decoded (ms : List Nat) :
    AuthMethod.noAuth ∈ ms.map authMethodFromByte ↔ 0x00 ∈ ms := by
  simp only [List.mem_map]
  constructor
  · rintro ⟨b, hb, he⟩
    rw [authMethodFromByte_eq_noAuth] at he
    exact he ▸ hb
  · intro h
    exact ⟨0x00, h, by rw [authMethodFromByte_eq_noAuth]⟩

/-- `Socks5Handler::handle_user_pass_auth` (src/socks5.rs lines 187-223) as a
pure function: reads `ver(0x01)|ulen|user|plen|pass`, consults the credential
oracle, writes `[0x01, 0x00]` on success or `[0x01, 0x01]` on failure, and
fails the connection on bad credentials. Credentials are kept as the raw
byte lists handed to `validate_credentials`. Returns (writes, outcome). -/
def socks5SubAuth (validate : List Nat → List Nat → Bool)
    (input : List Nat) : List (List Nat) × Except String Bool :=
  match input with
  | ver :: ulen :: rest =>
    if ver ≠ 0x01 then ([], .error "Invalid username/password auth version")
    else if rest.length < ulen then ([], .error "short read")
    else
      match rest.drop ulen with
      | plen :: rest3 =>
        if rest3.length < plen then ([], .error "short read")
        else
          let ok := validate (rest.take ulen) (rest3.take plen)
          ([[0x01, if ok then 0x00 else 0x01]],
            if ok then .ok true else .error "Authentication failed")
      | [] => ([], .error "short read")
  | _ => ([], .error "short read")

/-- `Socks5Handler::handle_handshake` (src/socks5.rs lines 133-185) as a pure
function from the input byte stream to (writes, outcome): reads
`ver(0x05)|nmethods|methods`, rejects `ver ≠ 0x05` and `nmethods = 0`,
selects the method per the auth-required rule, writes the two-byte reply
`[0x05, selected]`, then continues into sub-auth (UserPass), succeeds
(NoAuth), or fails (NoAcceptable). -/
def socks5Handshake (validate : List Nat → List Nat → Bool)
    (authRequired : Bool) (input : List Nat) :
    List (List Nat) × Except String Bool :=
  match input with
  | v :: n :: rest =>
    if v ≠ 0x05 then ([], .error "Unsupported SOCKS version")
    else if n = 0 then ([], .error "No authentication methods provided")
    else if rest.length < n then ([], .error "short read")
    else
      let methods := (rest.take n).map authMethodFromByte
      let selected :=
        if authRequired then
          if AuthMethod.userPass ∈ methods then AuthMethod.userPass
          else AuthMethod.noAcceptable
        else if AuthMethod.noAuth ∈ methods then AuthMethod.noAuth
        else AuthMethod.noAcceptable
      let reply := [0x05, selected.toByte]
      match selected with
      | .noAuth => ([reply], .ok true)
      | .userPass =>
        ((reply :: (socks5SubAuth validate (rest.drop n)).1),
          (socks5SubAuth validate (rest.drop n)).2)
      | .noAcceptable => ([reply], .error "No acceptable authentication method")
  | _ => ([], .error "short read")

/-- C1: for a greeting `05 | n | methods` with `n ≥ 1` method bytes, the
handshake selects UserPass (byte 0x02) when auth is enabled and offered,
NoAuth (byte 0x00) when auth is disabled and offered, and otherwise
NoAcceptable; the written reply is `[0x05, selected]`, and selecting
NoAcceptable ends the connection with an error. -/
theorem socks5Handshake_selection (validate : List Nat → List Nat → Bool)
    (authRequired : Bool) (n : Nat) (ms rest : List Nat)
    (hms : ms.length = n) (hn : 1 ≤ n) :
    (authRequired = true → 0x02 ∈ ms →
      socks5Handshake validate authRequired (0x05 :: n :: (ms ++ rest)) =
        ([0x05, 0x02] :: (socks5SubAuth validate rest).1,
          (socks5SubAuth validate rest).2)) ∧
    (authRequired = true → 0x02 ∉ ms →
      socks5Handshake validate authRequired (0x05 :: n :: (ms ++ rest)) =
        ([[0x05, 0xFF]], .error "No acceptable authentication method")) ∧
    (authRequired = false → 0x00 ∈ ms →
      socks5Handshake validate authRequired (0x05 :: n :: (ms ++ rest)) =
        ([[0x05, 0x00]], .ok true)) ∧
    (authRequired = false → 0x00 ∉ ms →
      socks5Handshake validate authRequired (0x05 :: n :: (ms ++ rest)) =
        ([[0x05, 0xFF]], .error "No acceptable authentication method")) := by
  have htake : (ms ++ rest).take n = ms := by subst hms; simp
  have hdrop : (ms ++ rest).drop n = rest := by subst hms; simp
  have hlength : ¬ (ms ++ rest).length < n := by subst hms; simp
  have hn0 : n ≠ 0 := by omega
  refine ⟨?_, ?_, ?_, ?_⟩ <;> intro hreq hmem <;> subst hreq <;>
    simp only [socks5Handshake, hn0, hlength, htake, hdrop,
      userPass_mem_decoded, noAuth_mem_decoded, hmem, if_true, if_false,
      ite_true, ite_false, AuthMethod.toByte] <;>
    simp [hmem]

/-- Witness for C1: auth disabled, client offers only UserPass (`05 01 02`);
the server replies `05 FF` and the handshake errors out. -/
theorem socks5Handshake_selection_witness :
    socks5Handshake (fun _ _ => false) false (0x05 :: 1 :: ([0x02] ++ [])) =
      ([[0x05, 0xFF]], .error "No acceptable authentication method") :=
  (socks5Handshake_selection (fun _ _ => false) false 1 [0x02] []
    (by decide) (by decide)).2.2.2 rfl (by decide)

/-! ## LDAP filter escaping (src/auth/ldap.rs) -/

/-- Rust `str::replace` with a single-character pattern: every occurrence of
`p` becomes `repl`, scanning left to right. -/
def replaceChar (p : Char) (repl : List Char) : List Char → List Char
  | [] => []
  | c :: rest => (if c = p then repl else [c]) ++ replaceChar p repl rest

/-- `LdapAuthenticator::escape_filter_value` (src/auth/ldap.rs lines 33-39):
the chained replaces, innermost (backslash) first. -/
def escape_filter_value (s : List Char) : List Char :=
  replaceChar (Char.ofNat 0) ['\\', '0', '0']
    (replaceChar ')' ['\\', '2', '9']
      (replaceChar '(' ['\\', '2', '8']
        (replaceChar '*' ['\\', '2', 'a']
          (replaceChar '\\' ['\\', '5', 'c'] s))))

/-- The per-character escaping map stated by the spec: `\` → `\5c`,
`*` → `\2a`, `(` → `\28`, `)` → `\29`, NUL → `\00`, all other characters
unchanged. -/
def escChar (c : Char) : List Char :=
  if c = '\\' then ['\\', '5', 'c']
  else if c = '*' then ['\\', '2', 'a']
  else if c = '(' then ['\\', '2', '8']
  else if c = ')' then ['\\', '2', '9']
  else if c = Char.ofNat 0 then ['\\', '0', '0']
  else [c]

/-- Concatenation of the images of a character-to-string map. -/
def concatMap (f : Char → List Char) : List Char → List Char
  | [] => []
  | c :: rest => f c ++ concatMap f rest

/-- Rust `str::replace` with the two-character pattern `"{}"`: each
occurrence of the placeholder is rewritten to `repl`, leftmost first and
non-overlapping (src/auth/ldap.rs line 72,
`self.user_filter.replace("{}", &safe_username)`). -/
def replacePlaceholder (repl : List Char) : List Char → List Char
  | [] => []
  | [c] => [c]
  | c1 :: c2 :: rest =>
    if c1 = Char.ofNat 123 ∧ c2 = Char.ofNat 125 then
      repl ++ replacePlaceholder repl rest
    else c1 :: replacePlaceholder repl (c2 :: rest)

/-- The LDAP search filter built by `LdapAuthenticator::authenticate`
(src/auth/ldap.rs lines 71-72): the escaped username substituted at the
placeholder in `user_filter`. -/
def buildLdapFilter (userFilter username : List Char) : List Char :=
  replacePlaceholder (escape_filter_value username) userFilter

theorem replaceChar_append (p : Char) (repl a b : List Char) :
    replaceChar p repl (a ++ b) = replaceChar p repl a ++ replaceChar p repl b := by
  induction a with
  | nil => simp [replaceChar]
  | cons c rest ih => simp [replaceChar, ih]

theorem escape_filter_value_append (a b : List Char) :
    escape_filter_value (a ++ b) = escape_filter_value a ++ escape_filter_value b := by
  simp [escape_filter_value, replaceChar_append]

theorem escape_filter_value_single (c : Char) :
    escape_filter_value [c] = escChar c := by
  by_cases h1 : c = '\\'
  · subst h1; decide
  by_cases h2 : c = '*'
  · subst h2; decide
  by_cases h3 : c = '('
  · subst h3; decide
  by_cases h4 : c = ')'
  · subst h4; decide
  by_cases h5 : c = Char.ofNat 0
  · subst h5; decide
  simp [escape_filter_value, replaceChar, escChar, h1, h2, h3, h4, h5]

/-- The chained replaces act character by character. -/
theorem escape_filter_value_eq_concatMap (s : List Char) :
    escape_filter_value s = concatMap escChar s := by
  induction s with
  | nil => decide
  | cons c rest ih =>
    have : (c :: rest) = [c] ++ rest := rfl
    rw [this, escape_filter_value_append, escape_filter_value_single, ih]
    rfl

theorem mem_concatMap (f : Char → List Char) (s : List Char) (c : Char) :
    c ∈ concatMap f s ↔ ∃ x ∈ s, c ∈ f x := by
  induction s with
  | nil => simp [concatMap]
  | cons a rest ih => simp [concatMap, ih]

/-- The raw LDAP metacharacters `*`, `(`, `)`, NUL never survive escaping. -/
theorem special_not_mem_escape (u : List Char) (c : Char)
    (hc : c = '*' ∨ c = '(' ∨ c = ')' ∨ c = Char.ofNat 0) :
    c ∉ escape_filter_value u := by
  rw [escape_filter_value_eq_concatMap, mem_concatMap]
  rintro ⟨x, _, hcx⟩
  unfold escChar at hcx
  split_ifs at hcx with h1 h2 h3 h4 h5
  · rcases hc with rfl | rfl | rfl | rfl <;> simp_all
  · rcases hc with rfl | rfl | rfl | rfl <;> exact absurd hcx (by decide)
  · rcases hc with rfl | rfl | rfl | rfl <;> exact absurd hcx (by decide)
  · rcases hc with rfl | rfl | rfl | rfl <;> exact absurd hcx (by decide)
  · rcases hc with rfl | rfl | rfl | rfl <;> exact absurd hcx (by decide)
  · simp only [List.mem_singleton] at hcx
    subst hcx
    rcases hc with rfl | rfl | rfl | rfl <;> simp_all

/-- Characters of a placeholder substitution come from the template or from
the replacement. -/
theorem mem_replacePlaceholder (repl : List Char) (s : List Char) (c : Char)
    (h : c ∈ replacePlaceholder repl s) : c ∈ s ∨ c ∈ repl := by
  induction s using replacePlaceholder.induct repl with
  | case1 => simp [replacePlaceholder] at h
  | case2 x => simp [replacePlaceholder] at h; simp [h]
  | case3 c1 c2 rest hp ih =>
    rw [replacePlaceholder, if_pos hp] at h
    rcases List.mem_append.mp h with h' | h'
    · exact Or.inr h'
    · rcases ih h' with h'' | h''
      · exact Or.inl (by simp [h''])
      · exact Or.inr h''
  | case4 c1 c2 rest hp ih =>
    rw [replacePlaceholder, if_neg hp] at h
    rcases List.mem_cons.mp h with h' | h'
    · exact Or.inl (by simp [h'])
    · rcases ih h' with h'' | h''
      · exact Or.inl (by simp at h'' ⊢; tauto)
      · exact Or.inr h''

/-- C2: the escaping function rewrites every character by the RFC-4515 map
(backslash → `\5c`, `*` → `\2a`, `(` → `\28`, `)` → `\29`, NUL → `\00`),
and any raw `*`, `(`, `)` or NUL found in the substituted filter comes from
`user_filter` itself, never from the username. -/
theorem ldap_escape_filter (userFilter username : List Char) (c : Char)
    (hc : c = '*' ∨ c = '(' ∨ c = ')' ∨ c = Char.ofNat 0) :
    escape_filter_value username = concatMap escChar username ∧
    (c ∈ buildLdapFilter userFilter username → c ∈ userFilter) := by
  refine ⟨escape_filter_value_eq_concatMap username, fun h => ?_⟩
  rcases mem_replacePlaceholder _ _ _ h with h' | h'
  · exact h'
  · exact absurd h' (special_not_mem_escape username c hc)

/-- Witness for C2 on the spec's injection example: username `admin)(uid=*`
against the filter template `(uid=<placeholder>)`. -/
theorem ldap_escape_filter_witness :
    escape_filter_value ("admin)(uid=*".data) = concatMap escChar ("admin)(uid=*".data) ∧
    ('*' ∈ buildLdapFilter
        ['(', 'u', 'i', 'd', '=', Char.ofNat 123, Char.ofNat 125, ')']
        ("admin)(uid=*".data) →
      '*' ∈ ['(', 'u', 'i', 'd', '=', Char.ofNat 123, Char.ofNat 125, ')']) :=
  ldap_escape_filter
    ['(', 'u', 'i', 'd', '=', Char.ofNat 123, Char.ofNat 125, ')']
    ("admin)(uid=*".data) '*' (Or.inl rfl)

/-! ## Hash schemes and the credential store (src/config/user_config.rs) -/

/-- `HashType` from src/config/user_config.rs (re-exported by src/config.rs). -/
inductive HashType where
  | argon2
  | bcrypt
  | scrypt
deriving DecidableEq, Repr

/-- `UserEntry` from src/config/user_config.rs. -/
structure UserEntry where
  password_hash : List Char
  salt : Option (List Char)
  created_at : List Char
  last_modified : List Char
  enabled : Bool
deriving DecidableEq, Repr

/-- `UserConfig` from src/config/user_config.rs; the `HashMap` of users is
kept as an association list with unique keys. -/
structure UserConfig where
  hash_type : HashType
  users : List (List Char × UserEntry)
deriving DecidableEq, Repr

/-- `HashMap::get` on the association list. -/
def lookupUser : List (List Char × UserEntry) → List Char → Option UserEntry
  | [], _ => none
  | (k, v) :: rest, name => if k = name then some v else lookupUser rest name

/-- `UserConfig::verify_password` (src/config/user_config.rs lines 120-134):
absent user → false; disabled user → false; otherwise the verifier for the
configured hash type decides. The argon2/bcrypt/scrypt verifiers call
external crates and are taken as parameters; the scrypt one also receives
the stored salt, which the source ignores. -/
def UserConfig.verify_password (va vb : List Char → List Char → Bool)
    (vs : List Char → List Char → Option (List Char) → Bool)
    (cfg : UserConfig) (username password : List Char) : Bool :=
  match lookupUser cfg.users username with
  | some user =>
    if !user.enabled then false
    else
      match cfg.hash_type with
      | .argon2 => va password user.password_hash
      | .bcrypt => vb password user.password_hash
      | .scrypt => vs password user.password_hash user.salt
  | none => false

/-- C6: `verify_password` returns true exactly when the user exists, is
enabled, and the configured hash verifier accepts; in particular it is
false whenever the user is absent, disabled, or verification fails. -/
theorem verify_password_spec (va vb : List Char → List Char → Bool)
    (vs : List Char → List Char → Option (List Char) → Bool)
    (cfg : UserConfig) (username password : List Char) :
    UserConfig.verify_password va vb vs cfg username password = true ↔
    ∃ user, lookupUser cfg.users username = some user ∧ user.enabled = true ∧
      (match cfg.hash_type with
       | .argon2 => va password user.password_hash
       | .bcrypt => vb password user.password_hash
       | .scrypt => vs password user.password_hash user.salt) = true := by
  unfold UserConfig.verify_password
  cases hl : lookupUser cfg.users username with
  | none => simp
  | some user =>
    by_cases he : user.enabled
    · simp [he]
    · simp [he]

/-! ## SQL authenticator (src/auth/sql.rs) -/

/-- `SqlAuthenticator::authenticate` (src/auth/sql.rs lines 52-86) as a pure
function of the outcome of the bound query: `Ok(Some(hash))` verifies the
password with the configured scheme's verifier, `Ok(None)` (no rows) is
`Ok(false)`, and a database error is logged and mapped to `Ok(false)`.
The external verifiers (`utils::verify_argon2` etc.) are parameters. -/
def sqlAuthenticate (va vb vs : List Char → List Char → Bool)
    (hashType : HashType) (password : List Char)
    (queryResult : Except String (Option (List Char))) : Except String Bool :=
  match queryResult with
  | .ok (some hash) =>
    match hashType with
    | .argon2 => .ok (va password hash)
    | .bcrypt => .ok (vb password hash)
    | .scrypt => .ok (vs password hash)
  | .ok none => .ok false
  | .error _ => .ok false

/-- C5: the SQL authenticator returns `Ok(false)` on an empty result set and
on a database error (never `Err`), and on a returned row it returns `Ok` of
the configured hash verifier's verdict. -/
theorem sqlAuthenticate_spec (va vb vs : List Char → List Char → Bool)
    (hashType : HashType) (password : List Char) :
    sqlAuthenticate va vb vs hashType password (.ok none) = .ok false ∧
    (∀ e, sqlAuthenticate va vb vs hashType password (.error e) = .ok false) ∧
    (∀ h, sqlAuthenticate va vb vs hashType password (.ok (some h)) =
      .ok (match hashType with
           | .argon2 => va password h
           | .bcrypt => vb password h
           | .scrypt => vs password h)) ∧
    (∀ r, ∃ b, sqlAuthenticate va vb vs hashType password r = .ok b) := by
  refine ⟨rfl, fun e => rfl, fun h => by cases hashType <;> rfl, fun r => ?_⟩
  match r with
  | .error e => exact ⟨false, rfl⟩
  | .ok none => exact ⟨false, rfl⟩
  | .ok (some h) => cases hashType <;> exact ⟨_, rfl⟩

/-! ## Configuration and validation (src/config.rs) -/

/-- The sequencing of a fallible check by Rust's `?` operator: an error
returns early, success continues. -/
def andThenE (a : Except String Unit) (k : Unit → Except String Unit) :
    Except String Unit :=
  match a with
  | .error e => .error e
  | .ok u => k u

@[simp] theorem andThenE_error (e : String) (k : Unit → Except String Unit) :
    andThenE (.error e) k = .error e := rfl

@[simp] theorem andThenE_ok (u : Unit) (k : Unit → Except String Unit) :
    andThenE (.ok u) k = k u := rfl

/-- `ServerConfig` from src/config.rs. -/
structure ServerConfig where
  bind_address : List Char
  socks5_port : Nat
  http_port : Nat
  max_connections : Nat
  connection_timeout : Nat
  buffer_size : Nat
deriving DecidableEq, Repr

/-- `AuthBackendConfig` from src/config.rs. -/
inductive AuthBackendConfig where
  | simple (user_config_file : List Char)
  | pam (service : List Char)
  | ldap (url base_dn : List Char) (bind_dn bind_password : Option (List Char))
      (user_filter : List Char)
  | database (db_type url query : List Char) (hash_type : HashType)
  | none
deriving DecidableEq, Repr

/-- `AuthConfig` from src/config.rs. -/
structure AuthConfig where
  enabled : Bool
  backend : AuthBackendConfig
deriving DecidableEq, Repr

/-- `LoggingConfig` from src/config.rs. -/
structure LoggingConfig where
  level : List Char
  file : Option (List Char)
  console : Bool
  journald : Bool
deriving DecidableEq, Repr

/-- `RateLimitConfig` from src/config.rs. -/
structure RateLimitConfig where
  requests_per_minute : Nat
  burst_size : Nat
deriving DecidableEq, Repr

/-- `SecurityConfig` from src/config.rs. -/
structure SecurityConfig where
  allowed_networks : List (List Char)
  blocked_domains : List (List Char)
  max_request_size : Nat
  rate_limit : Option RateLimitConfig
deriving DecidableEq, Repr

/-- `Config` from src/config.rs. -/
structure Config where
  server : ServerConfig
  auth : AuthConfig
  logging : LoggingConfig
  security : SecurityConfig
deriving DecidableEq, Repr

/-- The backend sub-field checks of `Config::validate`
(src/config.rs lines 166-202), run only when `auth.enabled`. -/
def checkAuthBackend (auth : AuthConfig) : Except String Unit :=
  match auth.backend with
  | .simple f =>
    if f = [] then .error "Authentication enabled (simple) but no user config file specified"
    else .ok ()
  | .pam s => if s = [] then .error "PAM service name cannot be empty" else .ok ()
  | .ldap url base _ _ filt =>
    if url = [] then .error "LDAP URL cannot be empty"
    else if base = [] then .error "LDAP Base DN cannot be empty"
    else if filt = [] then .error "LDAP User Filter cannot be empty"
    else .ok ()
  | .database _ url query _ =>
    if url = [] then .error "Database URL cannot be empty"
    else if query = [] then .error "Database query cannot be empty"
    else .ok ()
  | .none => .error "Authentication enabled but backend is configured as None"

/-- The `allowed_networks` loop of `Config::validate`
(src/config.rs lines 204-209): an entry containing `/` is skipped; any
other entry must parse as an IP address (the std parser is the `ipParse`
parameter). -/
def checkNetworks (ipParse : List Char → Bool) : List (List Char) → Except String Unit
  | [] => .ok ()
  | n :: rest =>
    if '/' ∈ n then checkNetworks ipParse rest
    else if ipParse n then checkNetworks ipParse rest
    else .error "Invalid network address"

/-- The accepted log levels (src/config.rs line 211). -/
def logLevels : List (List Char) :=
  ["trace".data, "debug".data, "info".data, "warn".data, "error".data]

/-- `Config::validate` (src/config.rs lines 142-216), parameterized by the
std-library IP-literal parser `ipParse` used for `parse::<IpAddr>()`. -/
def Config.validate (ipParse : List Char → Bool) (c : Config) : Except String Unit :=
  if c.server.socks5_port = 0 then .error "Invalid SOCKS5 port"
  else if c.server.http_port = 0 then .error "Invalid HTTP port"
  else if c.server.socks5_port = c.server.http_port then
    .error "SOCKS5 and HTTP ports cannot be the same"
  else if ¬ ipParse c.server.bind_address then .error "Invalid bind address"
  else if c.server.max_connections = 0 then
    .error "Max connections must be greater than 0"
  else if c.server.buffer_size < 1024 then
    .error "Buffer size must be at least 1024 bytes"
  else
    andThenE (if c.auth.enabled then checkAuthBackend c.auth else .ok ()) fun _ =>
      andThenE (checkNetworks ipParse c.security.allowed_networks) fun _ =>
        if c.logging.level ∈ logLevels then .ok ()
        else .error "Invalid log level"

/-- Splits a character list at every occurrence of `sep` (occurrences are
dropped; adjacent separators yield empty groups). -/
def splitOnChar (sep : Char) : List Char → List (List Char)
  | [] => [[]]
  | c :: rest =>
    match splitOnChar sep rest with
    | g :: gs => if c = sep then [] :: g :: gs else (c :: g) :: gs
    | [] => [[c]]

/-- Decimal value of a digit string, `none` if empty or non-digit. -/
def decToNat (l : List Char) : Option Nat :=
  if l ≠ [] ∧ l.all Char.isDigit then
    some (l.foldl (fun acc c => acc * 10 + (c.toNat - 48)) 0)
  else Option.none

/-- An ASCII hexadecimal digit. -/
def isHexChar (c : Char) : Bool :=
  c.isDigit || ('a' ≤ c && c ≤ 'f') || ('A' ≤ c && c ≤ 'F')

/-- Modelled from the spec: a dotted-quad IPv4 literal `a.b.c.d` with each
octet a decimal number of at most three digits valued 0-255 (the source
delegates IP parsing to the std library, outside this repository). -/
def isIPv4Literal (l : List Char) : Bool :=
  match splitOnChar '.' l with
  | [a, b, c, d] =>
    [a, b, c, d].all fun o =>
      o.length ≤ 3 && (match decToNat o with
                       | some v => v ≤ 255
                       | Option.none => false)
  | _ => false

/-- Modelled from the spec: a "bare IP literal" (v4 or v6) as accepted by
the std parser the source calls; IPv6 is approximated as a nonempty string
of hex digits and colons containing a colon. -/
def isIpLiteralM (l : List Char) : Bool :=
  isIPv4Literal l ||
    (decide (':' ∈ l) && !l.isEmpty && l.all fun c => isHexChar c || c = ':')

/-- Modelled from the spec: CIDR notation `a.b.c.d/n` — an IPv4 literal, a
slash, and a decimal prefix length of at most 32. -/
def isCidrNotation (l : List Char) : Bool :=
  match splitOnChar '/' l with
  | [ip, n] =>
    isIPv4Literal ip && (match decToNat n with
                         | some v => v ≤ 32
                         | Option.none => false)
  | _ => false

/-- An allowed-networks entry that is garbage on both sides of a slash. -/
def badNetworkEntry : List Char := "bad/entry".data

/-- An otherwise-valid configuration whose only allowed-networks entry is
`badNetworkEntry`. -/
def badConfig : Config :=
  ⟨⟨"127.0.0.1".data, 1080, 8080, 1000, 300, 65536⟩,
   ⟨false, .none⟩,
   ⟨"info".data, Option.none, true, false⟩,
   ⟨[badNetworkEntry], [], 1048576, Option.none⟩⟩

/-- Counterexample to C7: `Config::validate` accepts a configuration whose
allowed-networks entry `bad/entry` is neither valid CIDR notation nor an IP
literal, because any entry containing `/` skips the parse entirely. -/
theorem config_validate_accepts_invalid_network :
    Config.validate isIpLiteralM badConfig = .ok () ∧
    isCidrNotation badNetworkEntry = false ∧
    isIpLiteralM badNetworkEntry = false ∧
    badNetworkEntry ∈ badConfig.security.allowed_networks :=
  ⟨rfl, by decide, by decide, by decide⟩

/-- C7 as amended: the networks check of `Config::validate` succeeds exactly
when every entry either contains a `/` (accepted with no CIDR validity
check) or parses as an IP literal; and a passing `validate` implies the
networks check passed. -/
theorem config_validate_networks_amended (ipParse : List Char → Bool) (c : Config) :
    (checkNetworks ipParse c.security.allowed_networks = .ok () ↔
      ∀ n ∈ c.security.allowed_networks, '/' ∈ n ∨ ipParse n = true) ∧
    (Config.validate ipParse c = .ok () →
      checkNetworks ipParse c.security.allowed_networks = .ok ()) := by
  constructor
  · induction c.security.allowed_networks with
    | nil => simp [checkNetworks]
    | cons n rest ih =>
      by_cases hs : '/' ∈ n
      · simp [checkNetworks, hs, ih]
      · by_cases hip : ipParse n
        · simp [checkNetworks, hs, hip, ih]
        · simp [checkNetworks, hs, hip]
  · intro h
    unfold Config.validate at h
    split_ifs at h <;>
      cases hb : (if c.auth.enabled then checkAuthBackend c.auth else Except.ok ()) <;>
      cases hn : checkNetworks ipParse c.security.allowed_networks <;>
        simp_all

/-! ## HTTP request parsing (src/http_proxy.rs `handle_request`) -/

/-- Rust `char::is_whitespace`: the Unicode `White_Space` set — tab through
carriage return (U+0009-U+000D, including vertical tab and form feed),
space, next line, no-break space, Ogham space mark, the U+2000-U+200A
spaces, line and paragraph separators, narrow no-break space, medium
mathematical space, and ideographic space. -/
def isWs (c : Char) : Bool :=
  (0x09 ≤ c.toNat && c.toNat ≤ 0x0D) || c.toNat = 0x20 || c.toNat = 0x85 ||
  c.toNat = 0xA0 || c.toNat = 0x1680 ||
  (0x2000 ≤ c.toNat && c.toNat ≤ 0x200A) || c.toNat = 0x2028 ||
  c.toNat = 0x2029 || c.toNat = 0x202F || c.toNat = 0x205F || c.toNat = 0x3000

/-- Rust `str::trim`: strip whitespace from both ends. -/
def trimL (l : List Char) : List Char :=
  ((l.dropWhile isWs).reverse.dropWhile isWs).reverse

/-- Rust `str::to_lowercase`, restricted to the ASCII case folding header
names use. -/
def toLowerL (l : List Char) : List Char := l.map Char.toLower

/-- `read_line`: the chunk up to and including the first `\n` (or the whole
remainder at EOF), paired with the rest of the stream. -/
def splitLine : List Char → List Char × List Char
  | [] => ([], [])
  | c :: rest =>
    if c = '\n' then ([c], rest)
    else
      let p := splitLine rest
      (c :: p.1, p.2)

theorem splitLine_snd_lt (c : Char) (rest : List Char) :
    (splitLine (c :: rest)).2.length < (c :: rest).length := by
  induction rest generalizing c with
  | nil =>
    by_cases h : c = '\n' <;> simp [splitLine, h]
  | cons c2 r ih =>
    by_cases h : c = '\n'
    · simp [splitLine, h]
    · have := ih c2
      simp only [splitLine, if_neg h]
      simpa using Nat.lt_succ_of_lt this

theorem splitLine_no_nl (l rest : List Char) (h : '\n' ∉ l) :
    splitLine (l ++ '\n' :: rest) = (l ++ ['\n'], rest) := by
  induction l with
  | nil => simp [splitLine]
  | cons c l' ih =>
    have hc : c ≠ '\n' := fun hc => h (by simp [hc])
    have h' : '\n' ∉ l' := fun hm => h (by simp [hm])
    simp [splitLine, hc, ih h']

/-- `str::find(':')` — index of the first occurrence of a character. -/
def findCharIdx (target : Char) : List Char → Option Nat
  | [] => Option.none
  | c :: rest =>
    if c = target then some 0 else (findCharIdx target rest).map (· + 1)

theorem findCharIdx_eq_none (target : Char) (l : List Char) (h : target ∉ l) :
    findCharIdx target l = Option.none := by
  induction l with
  | nil => rfl
  | cons c rest ih =>
    have hc : c ≠ target := fun hc => h (by simp [hc])
    have h' : target ∉ rest := fun hm => h (by simp [hm])
    simp [findCharIdx, hc, ih h']

/-- `HashMap::insert` on the association list: replace the entry with the
same key, else append. -/
def insertHeader : List (List Char × List Char) → List Char → List Char →
    List (List Char × List Char)
  | [], name, val => [(name, val)]
  | (k, v) :: rest, name, val =>
    if k = name then (k, val) :: rest else (k, v) :: insertHeader rest name val

/-- The header-reading loop of `HttpProxyHandler::handle_request`
(src/http_proxy.rs lines 122-146): read a line, add its byte count to the
running total and fail past `max_request_size`; stop at EOF or at an empty
(all-whitespace) line; insert `name: value` for a line containing a colon
(name trimmed and lowercased, value trimmed); silently skip any other
line. -/
def readHeaders (maxSize : Nat) :
    Nat → List (List Char × List Char) → List Char →
      Except String (List (List Char × List Char))
  | total, headers, [] =>
    if total > maxSize then .error "Request size exceeds limit" else .ok headers
  | total, headers, c :: rest =>
    let p := splitLine (c :: rest)
    let total2 := total + p.1.length
    if total2 > maxSize then .error "Request size exceeds limit"
    else
      let hl := trimL p.1
      if hl = [] then .ok headers
      else
        match findCharIdx ':' hl with
        | some i =>
          readHeaders maxSize total2
            (insertHeader headers (toLowerL (trimL (hl.take i)))
              (trimL (hl.drop (i + 1)))) p.2
        | Option.none => readHeaders maxSize total2 headers p.2
  termination_by _ _ input => input.length
  decreasing_by
    all_goals simpa using splitLine_snd_lt c rest

/-- `HttpRequest` from src/http_proxy.rs. -/
structure HttpRequest where
  method : List Char
  uri : List Char
  version : List Char
  headers : List (List Char × List Char)
deriving DecidableEq, Repr

/-- Rust `str::split_whitespace` (accumulator-based helper). -/
def splitWsAux : List Char → List Char → List (List Char)
  | [], cur => if cur = [] then [] else [cur.reverse]
  | c :: rest, cur =>
    if isWs c then
      if cur = [] then splitWsAux rest [] else cur.reverse :: splitWsAux rest []
    else splitWsAux rest (c :: cur)

/-- Rust `str::split_whitespace`. -/
def splitWs (l : List Char) : List (List Char) := splitWsAux l []

/-- `HttpProxyHandler::handle_request` (src/http_proxy.rs lines 88-156):
read the request line (counting its bytes against `max_request_size`),
reject an empty read, split the trimmed line into exactly three
whitespace-separated tokens, then run the header loop. -/
def handleHttpRequest (maxSize : Nat) (input : List Char) :
    Except String HttpRequest :=
  let p := splitLine input
  if p.1.length > maxSize then .error "Request size exceeds limit"
  else if p.1 = [] then .error "Empty HTTP request line"
  else
    match splitWs (trimL p.1) with
    | [m, u, v] =>
      match readHeaders maxSize p.1.length [] p.2 with
      | .error e => .error e
      | .ok hs => .ok ⟨m, u, v, hs⟩
    | _ => .error "Invalid HTTP request line format"

/-- `ProxyServer::handle_http_connection` (src/server.rs lines 267-286) up
to the `?` on `handle_request`: a parse error is propagated as the task's
error with nothing written to the client; on success the rest of the
connection (auth check, tunnelling) is the continuation `k`, which returns
the writes made to the client and the task outcome. -/
def handleHttpConnection (maxSize : Nat)
    (k : HttpRequest → List (List Char) × Except String Unit)
    (input : List Char) : List (List Char) × Except String Unit :=
  match handleHttpRequest maxSize input with
  | .error e => ([], .error e)
  | .ok req => k req

/-- C3 as amended: when the cumulative bytes of the request line (or of the
request line plus headers) exceed `max_request_size`, `handle_request`
returns the error `Request size exceeds limit`, and `handle_http_connection`
propagates any `handle_request` error and closes the connection without
writing any response bytes to the client. -/
theorem http_oversize_closes_without_reply (maxSize : Nat)
    (k : HttpRequest → List (List Char) × Except String Unit) (input : List Char) :
    ((splitLine input).1.length > maxSize →
      handleHttpRequest maxSize input = .error "Request size exceeds limit") ∧
    (∀ total hs, total + (splitLine input).1.length > maxSize →
      readHeaders maxSize total hs input = .error "Request size exceeds limit") ∧
    (∀ e, handleHttpRequest maxSize input = .error e →
      handleHttpConnection maxSize k input = ([], .error e)) := by
  refine ⟨fun h => ?_, fun total hs h => ?_, fun e h => ?_⟩
  · simp [handleHttpRequest, h]
  · match input with
    | [] =>
      simp [splitLine] at h
      simp [readHeaders, h]
    | c :: rest =>
      simp only [readHeaders]
      simp [h]
  · simp [handleHttpConnection, h]

/-- The continuation standing for the post-parse part of
`handle_http_connection` in the oversize counterexample. -/
def httpNoopContinuation : HttpRequest → List (List Char) × Except String Unit :=
  fun _ => ([], .ok ())

/-- Counterexample to C3: with `max_request_size = 10`, the request
`GET / HTTP/1.1` (15 bytes) makes `handle_request` fail, and
`handle_http_connection` returns the error having written nothing — no
400-class response is sent to the client. -/
theorem http_oversize_counterexample :
    handleHttpConnection 10 httpNoopContinuation
        ("GET / HTTP/1.1\nHost: example.com\n\n".data) =
      ([], .error "Request size exceeds limit") := rfl

/-! ### Header lines without a colon (C10) -/

theorem dropWhileAppend (p : Char → Bool) (l₁ l₂ : List Char) :
    (l₁ ++ l₂).dropWhile p =
      if l₁.dropWhile p = [] then l₂.dropWhile p else l₁.dropWhile p ++ l₂ := by
  induction l₁ with
  | nil => simp
  | cons c r ih =>
    by_cases hp : p c
    · simp [List.dropWhile_cons, hp, ih]
    · simp [List.dropWhile_cons, hp]

theorem mem_of_mem_dropWhile (p : Char → Bool) (c : Char) (l : List Char)
    (h : c ∈ l.dropWhile p) : c ∈ l := by
  induction l with
  | nil => simp at h
  | cons a r ih =>
    rw [List.dropWhile_cons] at h
    by_cases hp : p a
    · rw [if_pos hp] at h
      exact List.mem_cons_of_mem a (ih h)
    · rwa [if_neg hp] at h

theorem mem_trimL (c : Char) (l : List Char) (h : c ∈ trimL l) : c ∈ l := by
  unfold trimL at h
  rw [List.mem_reverse] at h
  have h1 := mem_of_mem_dropWhile _ _ _ h
  rw [List.mem_reverse] at h1
  exact mem_of_mem_dropWhile _ _ _ h1

theorem trimL_append_nl (l : List Char) : trimL (l ++ ['\n']) = trimL l := by
  unfold trimL
  by_cases hd : l.dropWhile isWs = []
  · rw [dropWhileAppend, if_pos hd, hd]
    simp [List.dropWhile, isWs]
  · rw [dropWhileAppend, if_neg hd]
    rw [List.reverse_append]
    have hnl : isWs '\n' = true := rfl
    simp [List.dropWhile_cons, hnl]

/-- A nonempty line with no colon is skipped: the header loop continues on
the rest of the stream with the header map unchanged (only the byte total
advances). -/
theorem readHeaders_skip_colonless (maxSize total : Nat)
    (hs : List (List Char × List Char)) (l rest : List Char)
    (hnl : '\n' ∉ l) (hne : trimL l ≠ []) (hnc : ':' ∉ l)
    (hsz : total + (l.length + 1) ≤ maxSize) :
    readHeaders maxSize total hs (l ++ '\n' :: rest) =
      readHeaders maxSize (total + (l.length + 1)) hs rest := by
  cases l with
  | nil => exact absurd rfl hne
  | cons c l' =>
    have hsplit := splitLine_no_nl (c :: l') rest hnl
    simp only [List.cons_append] at hsplit
    have htrim := trimL_append_nl (c :: l')
    simp only [List.cons_append] at htrim
    have hfind : findCharIdx ':' (trimL (c :: l')) = Option.none :=
      findCharIdx_eq_none _ _ (fun hm => hnc (mem_trimL _ _ hm))
    have hc1 : (c :: (l' ++ ['\n'])).length = l'.length + 2 := by simp
    have hc2 : (c :: l').length = l'.length + 1 := by simp
    rw [hc2] at hsz
    show readHeaders maxSize total hs (c :: (l' ++ '\n' :: rest)) = _
    simp only [readHeaders]
    rw [hsplit]
    simp only [hc1, htrim, hfind]
    rw [if_neg (show ¬ total + (l'.length + 2) > maxSize by omega), if_neg hne]
    congr 1

/-- The header section formed by a list of lines, each terminated by `\n`. -/
def joinLines (L : List (List Char)) : List Char :=
  L.foldr (fun l acc => l ++ '\n' :: acc) []

/-- Total bytes of those lines including each terminating `\n`. -/
def linesSize (L : List (List Char)) : Nat :=
  L.foldr (fun l acc => l.length + 1 + acc) 0

theorem readHeaders_colonless_block (maxSize : Nat)
    (hs : List (List Char × List Char)) (L : List (List Char)) :
    ∀ total, (∀ l ∈ L, '\n' ∉ l ∧ trimL l ≠ [] ∧ ':' ∉ l) →
      total + linesSize L + 1 ≤ maxSize →
      readHeaders maxSize total hs (joinLines L ++ ['\n']) = .ok hs := by
  induction L with
  | nil =>
    intro total _ hsz
    simp only [linesSize, List.foldr] at hsz
    have h1 : joinLines [] ++ ['\n'] = ['\n'] := rfl
    rw [h1]
    simp [readHeaders, show splitLine ['\n'] = (['\n'], []) from rfl,
      show trimL ['\n'] = [] from rfl,
      show ¬ total + 1 > maxSize from by omega]
  | cons l L' ih =>
    intro total hL hsz
    simp only [linesSize, List.foldr] at hsz
    have hjoin : joinLines (l :: L') ++ ['\n'] = l ++ '\n' :: (joinLines L' ++ ['\n']) := by
      simp [joinLines, List.append_assoc]
    rw [hjoin]
    obtain ⟨hnl, hne, hnc⟩ := hL l (by simp)
    rw [readHeaders_skip_colonless maxSize total hs l _ hnl hne hnc (by omega)]
    refine ih (total + (l.length + 1)) (fun x hx => hL x (by simp [hx])) ?_
    simp only [linesSize]
    omega

/-- C10: a non-empty header line with no colon does not make parsing fail —
the loop discards it and continues with the header map unchanged — and a
header section made entirely of such lines (closed by the empty line)
parses successfully, contributing no entries at all. -/
theorem http_colonless_header_lines_discarded (maxSize total : Nat)
    (hs : List (List Char × List Char)) (L : List (List Char))
    (hL : ∀ l ∈ L, '\n' ∉ l ∧ trimL l ≠ [] ∧ ':' ∉ l)
    (hsz : total + linesSize L + 1 ≤ maxSize) :
    (∀ l rest, '\n' ∉ l → trimL l ≠ [] → ':' ∉ l →
      total + (l.length + 1) ≤ maxSize →
      readHeaders maxSize total hs (l ++ '\n' :: rest) =
        readHeaders maxSize (total + (l.length + 1)) hs rest) ∧
    readHeaders maxSize total hs (joinLines L ++ ['\n']) = .ok hs :=
  ⟨fun l rest h1 h2 h3 h4 => readHeaders_skip_colonless maxSize total hs l rest h1 h2 h3 h4,
   readHeaders_colonless_block maxSize hs L total hL hsz⟩

/-- Witness for C10: a lone colon-free garbage header line followed by the
empty line, within a 100-byte budget. -/
theorem http_colonless_header_lines_discarded_witness :
    (∀ l rest, '\n' ∉ l → trimL l ≠ [] → ':' ∉ l →
      0 + (l.length + 1) ≤ 100 →
      readHeaders 100 0 [] (l ++ '\n' :: rest) =
        readHeaders 100 (0 + (l.length + 1)) [] rest) ∧
    readHeaders 100 0 [] (joinLines ["garbage line".data] ++ ['\n']) = .ok [] :=
  http_colonless_header_lines_discarded 100 0 [] ["garbage line".data]
    (by decide) (by decide)
